import Mathlib

/-!
Verification of the dependency-analysis core of the `overwrite` extension.

The development shallowly embeds two source components and one spec-only
component:

* `ImportParser` (src/src/services/import-parser.ts): regex-based extraction
  of ES6 / CommonJS / dynamic import statements from file content.  The three
  JavaScript regular expressions and the two comment-stripping `replaceAll`
  passes are embedded as executable character-list scanners that reproduce the
  JS engine's leftmost-match, greedy/lazy and backtracking behaviour for these
  particular patterns.
* `PathResolver` (src/unnamed/part_003): resolution of an import specifier to
  an absolute path.  File-system existence checks are a parameter
  `Fs : String → Bool` (a `stat` that throws is caught by `fileExists` and
  treated as `false`, so it is absorbed into the `Bool`); the I/O behaviour of
  `resolve` is made observable through a trace of `ResolveEvent`s.  The
  `node:path` helpers (`dirname`, `resolve`, `join`, `extname`) are modelled
  for POSIX paths as used at the call sites (absolute importing files and
  workspace roots).
* The Selection Orchestrator, which has no implementation under src/ (only
  design documents); it is modelled from the spec, see `SelectionRecord`.
-/

namespace Overwrite

/-! ## Character classes of the JavaScript regexes -/

/-- JS regex `\s` (ASCII part): space, tab, LF, CR, VT, FF. -/
def isWsChar (c : Char) : Bool :=
  c = ' ' || c = '\t' || c = '\n' || c = '\r' || c = '\x0b' || c = '\x0c'

/-- JS regex `\w`: `[A-Za-z0-9_]`. -/
def isWordChar (c : Char) : Bool :=
  ('a' ≤ c && c ≤ 'z') || ('A' ≤ c && c ≤ 'Z') || ('0' ≤ c && c ≤ '9') || c = '_'

/-- A single or double quote, as in the class `['"]`. -/
def isQuoteChar (c : Char) : Bool := c = '\'' || c = '"'

/-- The class `[\w*\s\x7b\x7d,]` of ES6_IMPORT_REGEX's optional clause. -/
def inEs6Class (c : Char) : Bool :=
  isWordChar c || c = '*' || isWsChar c || c = '{' || c = '}' || c = ','

/-- Length of the maximal prefix of `cs` whose characters all satisfy `p`. -/
def takeRun (p : Char → Bool) : List Char → Nat
  | [] => 0
  | c :: cs => if p c then takeRun p cs + 1 else 0

/-- `String.prototype.split` with a one-character separator. -/
def splitOnChar (sep : Char) : List Char → List (List Char)
  | [] => [[]]
  | c :: rest =>
    if c = sep then [] :: splitOnChar sep rest
    else
      match splitOnChar sep rest with
      | l :: ls => (c :: l) :: ls
      | [] => [[c]]

/-- Trim leading and trailing whitespace (`String.prototype.trim`). -/
def trimWs (cs : List Char) : List Char :=
  ((cs.dropWhile isWsChar).reverse.dropWhile isWsChar).reverse

/-! ## ImportParser.removeComments

Source (import-parser.ts lines 107-115): first
`content.replaceAll(/\/\/.*$/gm, '')`, then
`replaceAll(/\/\*[\s\S]*?\*\//g, '')`.  In multiline mode `.` stops at (and
`$` matches before) a line terminator, so the first pass deletes from each
`//` to the next LF/CR; the lazy second pass deletes each `/*` up to the
nearest `*/` (an unclosed `/*` matches nothing and is kept). -/

/-- Drop characters up to (but excluding) the next line terminator. -/
def dropToEol : List Char → List Char
  | [] => []
  | c :: rest => if c = '\n' || c = '\r' then c :: rest else dropToEol rest

def removeLineCommentsAux : Nat → List Char → List Char
  | 0, cs => cs
  | _ + 1, [] => []
  | fuel + 1, '/' :: '/' :: rest => removeLineCommentsAux fuel (dropToEol rest)
  | fuel + 1, c :: rest => c :: removeLineCommentsAux fuel rest

def removeLineComments (cs : List Char) : List Char :=
  removeLineCommentsAux cs.length cs

/-- Remainder of the input just after the next `*/`, if any. -/
def afterBlockClose : List Char → Option (List Char)
  | [] => none
  | '*' :: '/' :: rest => some rest
  | _ :: rest => afterBlockClose rest

def removeBlockCommentsAux : Nat → List Char → List Char
  | 0, cs => cs
  | _ + 1, [] => []
  | fuel + 1, '/' :: '*' :: rest =>
    match afterBlockClose rest with
    | some rem => removeBlockCommentsAux fuel rem
    | none => '/' :: '*' :: rest
  | fuel + 1, c :: rest => c :: removeBlockCommentsAux fuel rest

def removeBlockComments (cs : List Char) : List Char :=
  removeBlockCommentsAux cs.length cs

/-- `ImportParser.removeComments`: line comments first, then block comments. -/
def removeComments (cs : List Char) : List Char :=
  removeBlockComments (removeLineComments cs)

/-! ## The three import regexes as position matchers

Each `tryMatch` function attempts the regex at the start of the given suffix
and returns the capture (group 1) together with the total number of
characters consumed by the match. -/

def kwImport : List Char := ['i', 'm', 'p', 'o', 'r', 't']
def kwFrom : List Char := ['f', 'r', 'o', 'm']
def kwRequire : List Char := ['r', 'e', 'q', 'u', 'i', 'r', 'e']

/-- `['"]([^'"]+)['"]` at the start of `cs`: an opening quote, a nonempty
maximal run of non-quote characters (the capture), then a closing quote
(either kind).  Returns the capture and the consumed length. -/
def quotedCapture (cs : List Char) : Option (List Char × Nat) :=
  match cs with
  | [] => none
  | c :: rest =>
    if isQuoteChar c then
      let n := takeRun (fun d => !isQuoteChar d) rest
      if n = 0 then none
      else
        match rest.drop n with
        | d :: _ => if isQuoteChar d then some (rest.take n, n + 2) else none
        | [] => none
    else none

/-- Backtracking search for the optional clause
`(?:[\w*\s\x7b\x7d,]*\s+from\s+)?` of ES6_IMPORT_REGEX, applied to the text
`s1` that follows `import`.  The engine's greedy exploration is equivalent to
trying, in descending order of length `L`, a block `u = s1.take L` of class
characters that starts and ends with whitespace (the leading `\s+` of the
regex and the `\s+` before `from`), immediately followed by `from`, `\s+` and
the quoted capture.  Returns capture and length consumed after `import`. -/
def es6GroupSearch (s1 : List Char) : Nat → Option (List Char × Nat)
  | 0 => none
  | 1 => none
  | l + 2 =>
    let lfull := l + 2
    let attempt :=
      if (match s1.get? (lfull - 1) with | some c => isWsChar c | none => false)
          && kwFrom.isPrefixOf (s1.drop lfull) then
        let t := s1.drop (lfull + 4)
        let k := takeRun isWsChar t
        if 1 ≤ k then
          match quotedCapture (t.drop k) with
          | some (cap, qn) => some (cap, lfull + 4 + k + qn)
          | none => none
        else none
      else none
    match attempt with
    | some r => some r
    | none => es6GroupSearch s1 (l + 1)

/-- `ES6_IMPORT_REGEX = /import\s+(?:(?:[\w*\s\x7b\x7d,]*)\s+from\s+)?['"]([^'"]+)['"]/g`
attempted at the start of `s`. -/
def es6TryMatch (s : List Char) : Option (List Char × Nat) :=
  if kwImport.isPrefixOf s then
    let s1 := s.drop 6
    let withGroup :=
      match s1 with
      | c :: _ => if isWsChar c then es6GroupSearch s1 (takeRun inEs6Class s1) else none
      | [] => none
    match withGroup with
    | some (cap, n) => some (cap, 6 + n)
    | none =>
      let k := takeRun isWsChar s1
      if 1 ≤ k then
        match quotedCapture (s1.drop k) with
        | some (cap, qn) => some (cap, 6 + k + qn)
        | none => none
      else none
  else none

/-- The declaration-keyword alternation `(?:const|let|var|import)`. -/
def cjsKeyword (s : List Char) : Option Nat :=
  if ['c', 'o', 'n', 's', 't'].isPrefixOf s then some 5
  else if ['l', 'e', 't'].isPrefixOf s then some 3
  else if ['v', 'a', 'r'].isPrefixOf s then some 3
  else if kwImport.isPrefixOf s then some 6
  else none

/-- The deterministic tail `\s*require\s*\(\s*['"]([^'"]+)['"]\s*\)` placed
just after a candidate `=`. -/
def cjsTail (t : List Char) : Option (List Char × Nat) :=
  let k1 := takeRun isWsChar t
  if kwRequire.isPrefixOf (t.drop k1) then
    let t2 := t.drop (k1 + 7)
    let k2 := takeRun isWsChar t2
    match t2.drop k2 with
    | '(' :: t3 =>
      let k3 := takeRun isWsChar t3
      match quotedCapture (t3.drop k3) with
      | some (cap, qn) =>
        let t4 := (t3.drop k3).drop qn
        let k4 := takeRun isWsChar t4
        match t4.drop k4 with
        | ')' :: _ => some (cap, k1 + 7 + k2 + 1 + k3 + qn + k4 + 1)
        | _ => none
      | none => none
    | _ => none
  else none

/-- The lazy `.*?=` search: `.` cannot cross a line terminator, and the first
`=` whose tail matches wins. -/
def cjsEqSearch : List Char → Option (List Char × Nat)
  | [] => none
  | c :: rest =>
    if c = '\n' || c = '\r' then none
    else
      let hit :=
        if c = '=' then
          match cjsTail rest with
          | some (cap, n) => some (cap, n + 1)
          | none => none
        else none
      match hit with
      | some r => some r
      | none =>
        match cjsEqSearch rest with
        | some (cap, n) => some (cap, n + 1)
        | none => none

/-- `COMMONJS_REQUIRE_REGEX = /(?:const|let|var|import)\s+.*?=\s*require\s*\(\s*['"]([^'"]+)['"]\s*\)/g`
attempted at the start of `s`. -/
def cjsTryMatch (s : List Char) : Option (List Char × Nat) :=
  match cjsKeyword s with
  | none => none
  | some kn =>
    let s1 := s.drop kn
    let r := takeRun isWsChar s1
    if 1 ≤ r then
      match cjsEqSearch (s1.drop r) with
      | some (cap, n) => some (cap, kn + r + n)
      | none => none
    else none

/-- `DYNAMIC_IMPORT_REGEX = /import\s*\(\s*['"]([^'"]+)['"]\s*\)/g` attempted
at the start of `s`. -/
def dynTryMatch (s : List Char) : Option (List Char × Nat) :=
  if kwImport.isPrefixOf s then
    let s1 := s.drop 6
    let k1 := takeRun isWsChar s1
    match s1.drop k1 with
    | '(' :: t =>
      let k2 := takeRun isWsChar t
      match quotedCapture (t.drop k2) with
      | some (cap, qn) =>
        let t2 := (t.drop k2).drop qn
        let k3 := takeRun isWsChar t2
        match t2.drop k3 with
        | ')' :: _ => some (cap, 6 + k1 + 1 + k2 + qn + k3 + 1)
        | _ => none
      | none => none
    | _ => none
  else none

/-- The `exec` loop of a global regex: at each position try the matcher; on a
match record `(position, capture)` and continue after the match, otherwise
advance one character.  `fuel = length of the suffix` suffices because every
match consumes at least one character. -/
def scanAux (tm : List Char → Option (List Char × Nat)) :
    Nat → List Char → Nat → List (Nat × List Char)
  | 0, _, _ => []
  | _ + 1, [], _ => []
  | fuel + 1, c :: rest, i =>
    match tm (c :: rest) with
    | some (cap, n) => (i, cap) :: scanAux tm fuel ((c :: rest).drop n) (i + n)
    | none => scanAux tm fuel rest (i + 1)

/-- All matches of a global regex in `cs` starting the scan at `start`
(the regex object's `lastIndex`). -/
def scanFrom (tm : List Char → Option (List Char × Nat)) (cs : List Char)
    (start : Nat) : List (Nat × List Char) :=
  scanAux tm cs.length (cs.drop start) start

/-! ## ImportParser data model and parse functions -/

inductive ImportType
  | es6
  | commonjs
  | dynamic
deriving DecidableEq, Repr

/-- `ImportStatement` (import-parser.ts lines 6-18). -/
structure ImportStatement where
  source : String
  type : ImportType
  specifiers : List String
  line : Nat
deriving DecidableEq, Repr

/-- `getLineNumber` (lines 240-243): `content.substring(0, index).split('\n').length`. -/
def getLineNumber (cs : List Char) (i : Nat) : Nat :=
  (splitOnChar '\n' (cs.take i)).length

/-- First match of a (non-global) regex matcher anywhere in the line. -/
def findFirstMatch (tm : List Char → Option (List Char)) : List Char → Option (List Char)
  | [] => none
  | c :: rest =>
    match tm (c :: rest) with
    | some r => some r
    | none => findFirstMatch tm rest

/-- `/import\s+(\w+)\s+from/` at the start of `s` (default import name). -/
def defaultSpecMatch (s : List Char) : Option (List Char) :=
  if kwImport.isPrefixOf s then
    let s1 := s.drop 6
    let w := takeRun isWsChar s1
    if 1 ≤ w then
      let n := takeRun isWordChar (s1.drop w)
      if 1 ≤ n then
        let t := (s1.drop w).drop n
        let w2 := takeRun isWsChar t
        if 1 ≤ w2 && kwFrom.isPrefixOf (t.drop w2) then some ((s1.drop w).take n)
        else none
      else none
    else none
  else none

/-- `/import\s*\x7b([^\x7d]+)\x7d/` at the start of `s` (named import list). -/
def namedSpecMatch (s : List Char) : Option (List Char) :=
  if kwImport.isPrefixOf s then
    let s1 := s.drop 6
    let w := takeRun isWsChar s1
    match s1.drop w with
    | '{' :: t1 =>
      let n := takeRun (fun d => !(d = '}')) t1
      if 1 ≤ n then
        match t1.drop n with
        | '}' :: _ => some (t1.take n)
        | _ => none
      else none
    | _ => none
  else none

/-- `/import\s+\*\s+as\s+(\w+)/` at the start of `s` (namespace import name). -/
def namespaceSpecMatch (s : List Char) : Option (List Char) :=
  if kwImport.isPrefixOf s then
    let s1 := s.drop 6
    let w := takeRun isWsChar s1
    if 1 ≤ w then
      match s1.drop w with
      | '*' :: t1 =>
        let w2 := takeRun isWsChar t1
        if 1 ≤ w2 && ['a', 's'].isPrefixOf (t1.drop w2) then
          let t2 := (t1.drop w2).drop 2
          let w3 := takeRun isWsChar t2
          let n := takeRun isWordChar (t2.drop w3)
          if 1 ≤ w3 && 1 ≤ n then some ((t2.drop w3).take n) else none
        else none
      | _ => none
    else none
  else none

/-- `extractES6Specifiers` (lines 206-235): default name, then the named list
split on commas, trimmed and filtered, then the namespace form rendered as
`* as Name`. -/
def extractES6Specifiers (line : List Char) : List String :=
  let ds :=
    match findFirstMatch defaultSpecMatch line with
    | some w => [String.mk w]
    | none => []
  let ns :=
    match findFirstMatch namedSpecMatch line with
    | some inner =>
      (((splitOnChar ',' inner).map trimWs).filter (fun l => !l.isEmpty)).map String.mk
    | none => []
  let ss :=
    match findFirstMatch namespaceSpecMatch line with
    | some w => [String.mk ('*' :: ' ' :: 'a' :: 's' :: ' ' :: w)]
    | none => []
  ds ++ ns ++ ss

/-- Build the `ImportStatement`s of the ES6 loop from the scan result:
`line` comes from the match offset, the specifiers from the single line
`lines[lineNumber - 1]` of the (comment-stripped) content. -/
def es6Statements (cs : List Char) (ms : List (Nat × List Char)) : List ImportStatement :=
  ms.map fun m =>
    let ln := getLineNumber cs m.1
    { source := String.mk m.2
      type := ImportType.es6
      specifiers := extractES6Specifiers ((splitOnChar '\n' cs).getD (ln - 1) [])
      line := ln }

/-- `parseES6Imports` (lines 120-147); the loop resets `lastIndex` to 0. -/
def parseES6Imports (cs : List Char) : List ImportStatement :=
  es6Statements cs (scanFrom es6TryMatch cs 0)

def cjsStatements (cs : List Char) (ms : List (Nat × List Char)) : List ImportStatement :=
  ms.map fun m =>
    { source := String.mk m.2
      type := ImportType.commonjs
      specifiers := []
      line := getLineNumber cs m.1 }

/-- `parseCommonJSImports` (lines 152-174). -/
def parseCommonJSImports (cs : List Char) : List ImportStatement :=
  cjsStatements cs (scanFrom cjsTryMatch cs 0)

def dynStatements (cs : List Char) (ms : List (Nat × List Char)) : List ImportStatement :=
  ms.map fun m =>
    { source := String.mk m.2
      type := ImportType.dynamic
      specifiers := []
      line := getLineNumber cs m.1 }

/-- `parseDynamicImports` (lines 179-201). -/
def parseDynamicImports (cs : List Char) : List ImportStatement :=
  dynStatements cs (scanFrom dynTryMatch cs 0)

/-- `parseImportsFromContent` (lines 75-94): strip comments, then collect the
ES6, CommonJS and dynamic matches, in that order. -/
def parseImportsFromContent (content : String) : List ImportStatement :=
  let cs := removeComments content.data
  parseES6Imports cs ++ parseCommonJSImports cs ++ parseDynamicImports cs

/-! ## Stateful view of the shared global-flag regexes

The three regexes are `static` class members with a mutable `lastIndex`.
Each parse function begins by setting `lastIndex = 0` (source lines 125,
156, 183) and its loop ends when `exec` fails, which resets `lastIndex`
to 0 again.  `RegexRegistry` makes that shared state explicit so that
independence from the incoming state is a statement, not a modelling
assumption. -/

structure RegexRegistry where
  es6LastIndex : Nat
  cjsLastIndex : Nat
  dynLastIndex : Nat
deriving DecidableEq, Repr

def parseES6ImportsSt (cs : List Char) (reg : RegexRegistry) :
    List ImportStatement × RegexRegistry :=
  let start : Nat := 0
  (es6Statements cs (scanFrom es6TryMatch cs start), { reg with es6LastIndex := 0 })

def parseCommonJSImportsSt (cs : List Char) (reg : RegexRegistry) :
    List ImportStatement × RegexRegistry :=
  let start : Nat := 0
  (cjsStatements cs (scanFrom cjsTryMatch cs start), { reg with cjsLastIndex := 0 })

def parseDynamicImportsSt (cs : List Char) (reg : RegexRegistry) :
    List ImportStatement × RegexRegistry :=
  let start : Nat := 0
  (dynStatements cs (scanFrom dynTryMatch cs start), { reg with dynLastIndex := 0 })

/-- `parseImportsFromContent` with the shared regex state threaded through. -/
def parseImportsFromContentSt (content : String) (reg : RegexRegistry) :
    List ImportStatement × RegexRegistry :=
  let cs := removeComments content.data
  let r1 := parseES6ImportsSt cs reg
  let r2 := parseCommonJSImportsSt cs r1.2
  let r3 := parseDynamicImportsSt cs r2.2
  (r1.1 ++ r2.1 ++ r3.1, r3.2)

/-! ## PathResolver (src/unnamed/part_003)

`node:path` helpers, modelled for POSIX paths.  The call sites only ever
pass absolute importing-file paths and an absolute workspace root, so
`pathJoin` roots its result. -/

/-- Resolve `.`/`..`/empty segments against a stack (absolute paths: `..`
above the root stays at the root). -/
def normalizeSegs : List (List Char) → List (List Char) → List (List Char)
  | acc, [] => acc.reverse
  | acc, seg :: rest =>
    if seg = [] || seg = ['.'] then normalizeSegs acc rest
    else if seg = ['.', '.'] then normalizeSegs acc.tail rest
    else normalizeSegs (seg :: acc) rest

/-- `path.resolve(dir, p)` for an absolute `dir`. -/
def pathResolve (dir p : String) : String :=
  let segs :=
    if p.data.head? = some '/' then splitOnChar '/' p.data
    else splitOnChar '/' dir.data ++ splitOnChar '/' p.data
  String.mk ('/' :: List.intercalate ['/'] (normalizeSegs [] segs))

/-- `path.dirname` for paths without a trailing slash. -/
def pathDirname (p : String) : String :=
  match (splitOnChar '/' p.data).dropLast with
  | [] => String.mk ['.']
  | [[]] => String.mk ['/']
  | ss => String.mk (List.intercalate ['/'] ss)

/-- `path.join(parts...)` where the first nonempty part is absolute:
empty parts are ignored and the result is normalized from the root. -/
def pathJoin (parts : List String) : String :=
  let segs := (parts.map fun q => splitOnChar '/' q.data).flatten
  String.mk ('/' :: List.intercalate ['/'] (normalizeSegs [] segs))

/-- `path.extname`: the suffix of the basename from its last dot, empty for
no dot or a leading-dot-only name. -/
def pathExtname (p : String) : String :=
  let base := (splitOnChar '/' p.data).getLastD []
  let rev := base.reverse
  let n := takeRun (fun c => !(c = '.')) rev
  if n = rev.length then String.mk []
  else if n + 1 = rev.length then String.mk []
  else String.mk ('.' :: (rev.take n).reverse)

/-- `PathResolverConfig` (part_003 lines 7-16), as it stands after
`ensureTsconfigLoaded` has populated `pathMappings`/`baseUrl`. -/
structure PathResolverConfig where
  workspaceRoot : String
  pathMappings : Option (List (String × List String))
  baseUrl : Option String

/-- The file system seen through `vscode.workspace.fs.stat`: `true` when the
path exists.  A `stat` that throws is caught by `fileExists` and yields
`false`, so it is absorbed here. -/
abbrev Fs := String → Bool

/-- Observable I/O of one `resolve` call. -/
inductive ResolveEvent
  | statCall (p : String)
  | tsconfigLoad
deriving DecidableEq, Repr

/-- `EXTENSIONS` (part_003 lines 37-44). -/
def EXTENSIONS : List String := [".ts", ".tsx", ".js", ".jsx", ".mjs", ".cjs"]

/-- `BARREL_FILES` (part_003 lines 47-52). -/
def BARREL_FILES : List String := ["index.ts", "index.tsx", "index.js", "index.jsx"]

/-- `fileExists` (part_003 lines 237-245): a failing stat is caught. -/
def fileExists (fs : Fs) (p : String) : Bool := fs p

/-- Probe a list of candidate paths in order, tracing every stat. -/
def probeList (fs : Fs) : List String → Option String × List ResolveEvent
  | [] => (none, [])
  | p :: ps =>
    if fileExists fs p then (some p, [ResolveEvent.statCall p])
    else
      match probeList fs ps with
      | (r, ev) => (r, ResolveEvent.statCall p :: ev)

/-- `findFile` (part_003 lines 207-232): exact path when it has an extension,
then each extension in order, then each barrel file in order. -/
def findFile (fs : Fs) (basePath : String) : Option String × List ResolveEvent :=
  let step1 : Option String × List ResolveEvent :=
    if pathExtname basePath ≠ "" then
      if fileExists fs basePath then (some basePath, [ResolveEvent.statCall basePath])
      else (none, [ResolveEvent.statCall basePath])
    else (none, [])
  match step1 with
  | (some p, ev) => (some p, ev)
  | (none, ev1) =>
    match probeList fs (EXTENSIONS.map fun ext => basePath ++ ext) with
    | (some p, ev2) => (some p, ev1 ++ ev2)
    | (none, ev2) =>
      match probeList fs (BARREL_FILES.map fun b => pathJoin [basePath, b]) with
      | (r, ev3) => (r, ev1 ++ ev2 ++ ev3)

/-- The candidate list `findFile` probes, in its fixed order. -/
def findFileCandidates (basePath : String) : List String :=
  (if pathExtname basePath ≠ "" then [basePath] else [])
    ++ (EXTENSIONS.map fun ext => basePath ++ ext)
    ++ (BARREL_FILES.map fun b => pathJoin [basePath, b])

/-- `startsWith` with a one-character prefix: the first character is `c`. -/
def strStartsWithChar (s : String) (c : Char) : Bool := s.data.head? = some c

/-- `isExternalPackage` (part_003 lines 121-125): the specifier starts with
neither `.` nor `/`. -/
def isExternalPackage (importPath : String) : Bool :=
  !strStartsWithChar importPath '.' && !strStartsWithChar importPath '/'

/-- The glob-to-regex conversion of `resolveTsconfigPath`:
`pattern.replaceAll('*', '(.*)')` anchored with `^...$`.  `matchGlobAux`
matches the `'*'`-split parts of the pattern against the target with the
engine's greedy star (longest first, `.` not crossing a line terminator)
and returns the list of captures.  `k` is the star length currently tried
for the first part boundary; the fuel argument strictly decreases on every
recursive call and `globFuel` overapproximates the total number of steps. -/
def matchGlobAux : Nat → List (List Char) → List Char → Nat → Option (List (List Char))
  | 0, _, _, _ => none
  | _ + 1, [], t, _ => if t = [] then some [] else none
  | _ + 1, [l], t, _ => if t = l then some [] else none
  | fuel + 1, l :: l2 :: rest, t, k =>
    let hit :=
      if l.isPrefixOf t then
        let tAfter := t.drop l.length
        let x := tAfter.take k
        if x.contains '\n' then none
        else
          match matchGlobAux fuel (l2 :: rest) (tAfter.drop k) (tAfter.drop k).length with
          | some caps => some (x :: caps)
          | none => none
      else none
    match hit with
    | some r => some r
    | none =>
      match k with
      | 0 => none
      | k' + 1 => matchGlobAux fuel (l :: l2 :: rest) t k'

/-- Captures of `^pattern$` (with each `*` turned into `(.*)`) against
`target`, or `none` when the regex does not match.  Non-star characters of
the pattern are treated literally (the tsconfig patterns the code is used
with contain no other regex metacharacters). -/
def globCaptures (pattern target : String) : Option (List (List Char)) :=
  let parts := splitOnChar '*' pattern.data
  let fuel := (pattern.data.length + 2) * (target.data.length + 2) + target.data.length + 2
  matchGlobAux fuel parts target.data target.data.length

/-- `replaceAll('*', matchedPart)` on a mapped path. -/
def replaceStar (s rep : List Char) : List Char :=
  match s with
  | [] => []
  | '*' :: rest => rep ++ replaceStar rest rep
  | c :: rest => c :: replaceStar rest rep

/-- Inner loop of `resolveTsconfigPath`: try each mapped path of a matching
pattern. -/
def mappedPathsLoop (cfg : PathResolverConfig) (fs : Fs) (matchedPart : List Char) :
    List String → Option String × List ResolveEvent
  | [] => (none, [])
  | mp :: rest =>
    let resolvedPattern := replaceStar mp.data matchedPart
    let absolutePath :=
      pathJoin [cfg.workspaceRoot, cfg.baseUrl.getD "", String.mk resolvedPattern]
    match findFile fs absolutePath with
    | (some p, ev) => (some p, ev)
    | (none, ev) =>
      match mappedPathsLoop cfg fs matchedPart rest with
      | (r, ev2) => (r, ev ++ ev2)

/-- Outer loop of `resolveTsconfigPath` (part_003 lines 144-182): test the
specifier against each alias pattern; on a match substitute the matched part
into each mapped path and probe; fall through to later patterns otherwise. -/
def mappingsLoop (cfg : PathResolverConfig) (fs : Fs) (importPath : String) :
    List (String × List String) → Option String × List ResolveEvent
  | [] => (none, [])
  | (pattern, paths) :: rest =>
    match globCaptures pattern importPath with
    | some caps =>
      let matchedPart := (caps.head?).getD []
      match mappedPathsLoop cfg fs matchedPart paths with
      | (some p, ev) => (some p, ev)
      | (none, ev) =>
        match mappingsLoop cfg fs importPath rest with
        | (r, ev2) => (r, ev ++ ev2)
    | none => mappingsLoop cfg fs importPath rest

def resolveTsconfigPath (cfg : PathResolverConfig) (fs : Fs) (importPath : String) :
    Option String × List ResolveEvent :=
  match cfg.pathMappings with
  | none => (none, [])
  | some ms => mappingsLoop cfg fs importPath ms

/-- `resolveRelativePath` (part_003 lines 130-139). -/
def resolveRelativePath (fs : Fs) (importPath currentFilePath : String) :
    Option String × List ResolveEvent :=
  findFile fs (pathResolve (pathDirname currentFilePath) importPath)

/-- `resolveBaseUrlPath` (part_003 lines 187-199). -/
def resolveBaseUrlPath (cfg : PathResolverConfig) (fs : Fs) (importPath : String) :
    Option String × List ResolveEvent :=
  match cfg.baseUrl with
  | none => (none, [])
  | some b => findFile fs (pathJoin [cfg.workspaceRoot, b, importPath])

/-- `resolve` (part_003 lines 67-116).  The external-package test comes
first; only then is the tsconfig loaded (`tsconfigLoad` event) and the three
strategies tried in order.  The surrounding try/catch and the catch inside
`fileExists` make the function total with `none` as the failure value. -/
def resolve (cfg : PathResolverConfig) (fs : Fs) (importPath currentFilePath : String) :
    Option String × List ResolveEvent :=
  if isExternalPackage importPath then (none, [])
  else
    let evLoad := [ResolveEvent.tsconfigLoad]
    let step1 :=
      match cfg.pathMappings with
      | some _ => resolveTsconfigPath cfg fs importPath
      | none => (none, [])
    match step1 with
    | (some p, ev) => (some p, evLoad ++ ev)
    | (none, ev1) =>
      match resolveRelativePath fs importPath currentFilePath with
      | (some p, ev2) => (some p, evLoad ++ ev1 ++ ev2)
      | (none, ev2) =>
        match cfg.baseUrl with
        | some _ =>
          match resolveBaseUrlPath cfg fs importPath with
          | (r, ev3) => (r, evLoad ++ ev1 ++ ev2 ++ ev3)
        | none => (none, evLoad ++ ev1 ++ ev2)

/-! ## Selection Orchestrator (modelled from the spec) -/

/-- Modelled from the spec: the Selection Orchestrator (spec section 4.6) has
no implementation under src/ — only design documents describe it.  Per the
spec, a `SelectionRecord` holds, for one auto-selected file, the set of root
paths responsible for its inclusion and the smallest depth across the
contributing roots. -/
structure SelectionRecord where
  selectedBy : List String
  minDepth : Nat
deriving DecidableEq, Repr

/-- Modelled from the spec: the orchestrator's state, one record per tracked
file (an association list keyed by path). -/
abbrev SelectionState := List (String × SelectionRecord)

/-- Modelled from the spec: a `SelectionUpdate`'s `added`/`removed` path sets
(the per-path metadata map is omitted; no claim concerns it). -/
structure SelectionUpdate where
  added : List String
  removed : List String
deriving DecidableEq, Repr

/-- Modelled from the spec, `applyRoot` step for one graph node: add `root`
to the node's `selectedBy` (creating the record if absent), lower `minDepth`,
and report whether the node was previously unselected. -/
def addRootToNode (root : String) (depth : Nat) (p : String) :
    SelectionState → Bool × SelectionState
  | [] => (true, [(p, ⟨[root], depth⟩)])
  | (q, r) :: rest =>
    if q = p then
      (r.selectedBy.isEmpty,
        (q, ⟨if root ∈ r.selectedBy then r.selectedBy else r.selectedBy ++ [root],
          min r.minDepth depth⟩) :: rest)
    else
      match addRootToNode root depth p rest with
      | (b, rest') => (b, (q, r) :: rest')

/-- Modelled from the spec: `applyRoot(root, graph)` — for every node of the
graph other than the root itself, record the root as a selector; a node is
reported in `added` only if it was not previously selected by any root. -/
def applyRoot (root : String) (graphNodes : List (String × Nat)) (s : SelectionState) :
    SelectionUpdate × SelectionState :=
  graphNodes.foldl
    (fun st nd =>
      if nd.1 = root then st
      else
        match addRootToNode root nd.2 nd.1 st.2 with
        | (isNew, s') =>
          (⟨if isNew then st.1.added ++ [nd.1] else st.1.added, st.1.removed⟩, s'))
    (⟨[], []⟩, s)

/-- Modelled from the spec: `removeRoot(root)` — remove `root` from every
`selectedBy` set containing it; report a node in `removed` only if its
`selectedBy` set becomes empty as a result, and drop such nodes from the
active selection. -/
def removeRoot (root : String) (s : SelectionState) : SelectionUpdate × SelectionState :=
  let removed :=
    (s.filter fun pr =>
      pr.2.selectedBy.contains root && (pr.2.selectedBy.filter fun x => !(x = root)).isEmpty).map
      Prod.fst
  let s1 := s.map fun pr =>
    (pr.1, SelectionRecord.mk (pr.2.selectedBy.filter fun x => !(x = root)) pr.2.minDepth)
  (⟨[], removed⟩, s1.filter fun pr => !pr.2.selectedBy.isEmpty)

/-! ## Lemmas about the scanners -/

/-- Every position recorded by the exec loop is at least the start position. -/
theorem scanAux_le (tm : List Char → Option (List Char × Nat)) :
    ∀ (fuel : Nat) (s : List Char) (i : Nat) (p : Nat × List Char),
      p ∈ scanAux tm fuel s i → i ≤ p.1 := by
  intro fuel
  induction fuel with
  | zero => intro s i p hp; simp [scanAux] at hp
  | succ f ih =>
    intro s i p hp
    rcases s with _ | ⟨c, rest⟩
    · simp [scanAux] at hp
    · rw [scanAux] at hp
      revert hp
      split
      · rename_i cap n heq
        intro hp
        rcases List.mem_cons.mp hp with h | h
        · subst h; exact Nat.le_refl _
        · have := ih _ _ _ h
          omega
      · intro hp
        have := ih _ _ _ hp
        omega

/-- Positions recorded by the exec loop are non-decreasing. -/
theorem scanAux_chain (tm : List Char → Option (List Char × Nat)) :
    ∀ (fuel : Nat) (s : List Char) (i : Nat),
      List.Chain' (fun a b => a ≤ b) ((scanAux tm fuel s i).map Prod.fst) := by
  intro fuel
  induction fuel with
  | zero => intro s i; simp [scanAux]
  | succ f ih =>
    intro s i
    rcases s with _ | ⟨c, rest⟩
    · simp [scanAux]
    · rw [scanAux]
      split
      · rename_i cap n heq
        rw [List.map_cons]
        refine List.chain'_cons'.mpr ⟨?_, ih _ _⟩
        intro b hb
        have hbmem : b ∈ (scanAux tm f ((c :: rest).drop n) (i + n)).map Prod.fst :=
          List.mem_of_mem_head? hb
        rcases List.mem_map.mp hbmem with ⟨q, hq, rfl⟩
        have := scanAux_le tm f _ _ q hq
        omega
      · exact ih _ _

theorem splitOnChar_ne_nil (sep : Char) (cs : List Char) : splitOnChar sep cs ≠ [] := by
  induction cs with
  | nil => simp [splitOnChar]
  | cons c rest ih =>
    rw [splitOnChar]
    split
    · simp
    · rcases h : splitOnChar sep rest with _ | ⟨l, ls⟩
      · simp
      · simp

theorem splitOnChar_length (sep : Char) (cs : List Char) :
    (splitOnChar sep cs).length = cs.count sep + 1 := by
  induction cs with
  | nil => simp [splitOnChar]
  | cons c rest ih =>
    rw [splitOnChar]
    split
    · rename_i hc
      subst hc
      simp [List.count_cons, ih]
    · rename_i hc
      rcases h : splitOnChar sep rest with _ | ⟨l, ls⟩
      · exact absurd h (splitOnChar_ne_nil sep rest)
      · have := ih
        rw [h] at this
        simp only [List.length_cons] at this ⊢
        rw [List.count_cons]
        simp [hc, Ne.symm hc]
        omega

/-- `getLineNumber` is one plus the number of newline characters before the
offset. -/
theorem getLineNumber_eq (cs : List Char) (i : Nat) :
    getLineNumber cs i = (cs.take i).count '\n' + 1 := by
  unfold getLineNumber
  exact splitOnChar_length '\n' (cs.take i)

theorem count_take_le (cs : List Char) (a : Char) {i j : Nat} (h : i ≤ j) :
    (cs.take i).count a ≤ (cs.take j).count a := by
  have hpre : cs.take i <+: cs.take j := by
    have := List.take_prefix i (cs.take j)
    rwa [List.take_take, Nat.min_eq_left h] at this
  exact hpre.sublist.count_le a

theorem getLineNumber_mono (cs : List Char) {i j : Nat} (h : i ≤ j) :
    getLineNumber cs i ≤ getLineNumber cs j := by
  rw [getLineNumber_eq, getLineNumber_eq]
  have := count_take_le cs '\n' h
  omega

/-- The line numbers of the statements produced from one scan are
non-decreasing. -/
theorem scan_lines_mono (tm : List Char → Option (List Char × Nat)) (cs : List Char) :
    List.Chain' (fun a b => a ≤ b)
      ((scanFrom tm cs 0).map fun m => getLineNumber cs m.1) := by
  have hchain := scanAux_chain tm cs.length (cs.drop 0) 0
  have h1 : List.Chain' (fun a b : Nat × List Char => a.1 ≤ b.1)
      (scanAux tm cs.length (cs.drop 0) 0) := (List.chain'_map Prod.fst).mp hchain
  have h2 : List.Chain' (fun a b : Nat × List Char =>
      getLineNumber cs a.1 ≤ getLineNumber cs b.1)
      (scanAux tm cs.length (cs.drop 0) 0) :=
    h1.imp fun a b hab => getLineNumber_mono cs hab
  exact (List.chain'_map _).mpr h2

/-! ## Lemmas about the resolver -/

theorem probeList_fst (fs : Fs) : ∀ ps : List String, (probeList fs ps).1 = ps.find? fs := by
  intro ps
  induction ps with
  | nil => simp [probeList, List.find?]
  | cons p rest ih =>
    rw [probeList]
    by_cases hp : fileExists fs p
    · simp only [hp, if_true]
      simp [List.find?, fileExists] at hp ⊢
      simp [hp]
    · simp only [hp]
      simp only [Bool.false_eq_true, if_false]
      rcases h : probeList fs rest with ⟨r, ev⟩
      simp only [List.find?]
      simp only [fileExists] at hp
      rw [Bool.not_eq_true] at hp
      rw [hp]
      rw [h] at ih
      exact ih

/-- `findFile` returns the first existing candidate in the fixed probing
order: the verbatim path when it already has an extension, then each
supported extension, then each barrel file. -/
theorem findFile_fst (fs : Fs) (b : String) :
    (findFile fs b).1 = (findFileCandidates b).find? fs := by
  rcases h2 : probeList fs (EXTENSIONS.map fun ext => b ++ ext) with ⟨r2, ev2⟩
  rcases h3 : probeList fs (BARREL_FILES.map fun bf => pathJoin [b, bf]) with ⟨r3, ev3⟩
  have e2 := probeList_fst fs (EXTENSIONS.map fun ext => b ++ ext)
  have e3 := probeList_fst fs (BARREL_FILES.map fun bf => pathJoin [b, bf])
  rw [h2] at e2
  rw [h3] at e3
  simp only at e2 e3
  by_cases hbeq : pathExtname b = ""
  · rw [findFile, findFileCandidates]
    simp only [hbeq, ne_eq, not_true_eq_false, if_false, h2, h3, List.nil_append,
      List.find?_append, ← e2, ← e3]
    cases r2 with
    | some p2 => rfl
    | none =>
      cases r3 with
      | some p3 => rfl
      | none => rfl
  · rw [findFile, findFileCandidates]
    by_cases hb : fs b
    · simp only [hbeq, ne_eq, not_false_eq_true, if_true, fileExists, hb,
        List.cons_append, List.find?_cons, h2, h3]
    · rw [Bool.not_eq_true] at hb
      simp only [hbeq, ne_eq, not_false_eq_true, if_true, fileExists, hb,
        Bool.false_eq_true, if_false, h2, h3, List.cons_append, List.find?_cons,
        List.find?_append, ← e2, ← e3]
      cases r2 with
      | some p2 => rfl
      | none =>
        cases r3 with
        | some p3 => rfl
        | none => rfl

/-- With no path mappings and no baseUrl configured, `resolve` on a
non-external specifier is exactly relative resolution through `findFile`. -/
theorem resolve_relative_fst (cfg : PathResolverConfig) (fs : Fs)
    (spec file : String) (hm : cfg.pathMappings = none) (hb : cfg.baseUrl = none)
    (hext : isExternalPackage spec = false) :
    (resolve cfg fs spec file).1 =
      (findFileCandidates (pathResolve (pathDirname file) spec)).find? fs := by
  unfold resolve
  rw [hext]
  simp only [Bool.false_eq_true, if_false, hm, hb]
  rcases hff : findFile fs (pathResolve (pathDirname file) spec) with ⟨r, ev⟩
  have := findFile_fst fs (pathResolve (pathDirname file) spec)
  rw [hff] at this
  rcases r with _ | p
  · simp only [resolveRelativePath, hff, ← this]
  · simp only [resolveRelativePath, hff, ← this]

/-! ## Lemmas about the Selection Orchestrator model -/

theorem lookup_mem (s : SelectionState) (x : String) (r : SelectionRecord)
    (h : s.lookup x = some r) : (x, r) ∈ s := by
  induction s with
  | nil => simp [List.lookup] at h
  | cons hd tl ih =>
    rcases hd with ⟨k, v⟩
    simp only [List.lookup] at h
    cases hk : x == k with
    | true =>
      rw [hk] at h
      simp only [Option.some.injEq] at h
      subst h
      have hx : x = k := eq_of_beq hk
      subst hx
      exact List.mem_cons_self _ _
    | false =>
      rw [hk] at h
      exact List.mem_cons_of_mem _ (ih h)

theorem nodup_keys_unique (s : SelectionState)
    (hnd : (s.map Prod.fst).Nodup) (x : String) (r1 r2 : SelectionRecord)
    (h1 : (x, r1) ∈ s) (h2 : (x, r2) ∈ s) : r1 = r2 := by
  induction s with
  | nil => simp at h1
  | cons hd tl ih =>
    rw [List.map_cons, List.nodup_cons] at hnd
    rcases List.mem_cons.mp h1 with e1 | m1
    · rcases List.mem_cons.mp h2 with e2 | m2
      · rw [← e1] at e2
        exact (Prod.mk.injEq _ _ _ _ |>.mp e2).2.symm
      · exfalso
        apply hnd.1
        rw [← e1]
        exact List.mem_map.mpr ⟨(x, r2), m2, rfl⟩
    · rcases List.mem_cons.mp h2 with e2 | m2
      · exfalso
        apply hnd.1
        rw [← e2]
        exact List.mem_map.mpr ⟨(x, r1), m1, rfl⟩
      · exact ih hnd.2 m1 m2

theorem removeRoot_not_removed (s : SelectionState) (root x : String)
    (rec : SelectionRecord) (hnd : (s.map Prod.fst).Nodup)
    (hx : s.lookup x = some rec)
    (hne : (rec.selectedBy.filter fun y => !(y = root)).isEmpty = false) :
    x ∉ (removeRoot root s).1.removed := by
  intro hmem
  unfold removeRoot at hmem
  simp only at hmem
  rcases List.mem_map.mp hmem with ⟨pr, hpr, hfst⟩
  rcases List.mem_filter.mp hpr with ⟨hprs, hcond⟩
  have hmemx : (x, pr.2) ∈ s := by
    rw [← hfst]
    exact hprs
  have hrec : pr.2 = rec :=
    nodup_keys_unique s hnd x pr.2 rec hmemx (lookup_mem s x rec hx)
  rw [hrec] at hcond
  rw [Bool.and_eq_true] at hcond
  rw [hcond.2] at hne
  exact absurd hne (by simp)

theorem lookup_filter_map (root x : String) (rec : SelectionRecord) :
    ∀ s : SelectionState, s.lookup x = some rec →
      ((rec.selectedBy.filter fun y => !(y = root)).isEmpty) = false →
      (((s.map fun pr =>
          (pr.1, SelectionRecord.mk (pr.2.selectedBy.filter fun y => !(y = root))
            pr.2.minDepth)).filter
        fun pr => !pr.2.selectedBy.isEmpty).lookup x)
        = some ⟨rec.selectedBy.filter fun y => !(y = root), rec.minDepth⟩ := by
  intro s
  induction s with
  | nil => intro hx _; simp [List.lookup] at hx
  | cons hd tl ih =>
    intro hx hne
    rcases hd with ⟨k, v⟩
    simp only [List.lookup] at hx
    cases hk : x == k with
    | true =>
      rw [hk] at hx
      simp only [Option.some.injEq] at hx
      subst hx
      simp only [List.map_cons, List.filter_cons, hne, Bool.not_false, if_true]
      simp only [List.lookup, hk]
    | false =>
      rw [hk] at hx
      simp only [List.map_cons, List.filter_cons]
      by_cases hg : (!(v.selectedBy.filter fun y => !(y = root)).isEmpty) = true
      · rw [if_pos hg]
        simp only [List.lookup, hk]
        exact ih hx hne
      · rw [if_neg hg]
        exact ih hx hne

theorem removeRoot_lookup (s : SelectionState) (root x : String) (rec : SelectionRecord)
    (hx : s.lookup x = some rec)
    (hne : ((rec.selectedBy.filter fun y => !(y = root))).isEmpty = false) :
    ((removeRoot root s).2).lookup x
      = some ⟨rec.selectedBy.filter fun y => !(y = root), rec.minDepth⟩ := by
  unfold removeRoot
  simp only
  exact lookup_filter_map root x rec s hx hne

theorem removeRoot_removed_mem (s : SelectionState) (root x : String)
    (rec : SelectionRecord) (hmem : (x, rec) ∈ s)
    (hin : rec.selectedBy.contains root = true)
    (hempty : (rec.selectedBy.filter fun y => !(y = root)).isEmpty = true) :
    x ∈ (removeRoot root s).1.removed := by
  unfold removeRoot
  simp only
  refine List.mem_map.mpr ⟨(x, rec), List.mem_filter.mpr ⟨hmem, ?_⟩, rfl⟩
  rw [Bool.and_eq_true]
  exact ⟨hin, hempty⟩

/-! ## Bridging lemmas for the parse functions -/

theorem es6Statements_lines (cs : List Char) (ms : List (Nat × List Char)) :
    (es6Statements cs ms).map (fun st => st.line) =
      ms.map fun m => getLineNumber cs m.1 := by
  unfold es6Statements
  rw [List.map_map]
  rfl

theorem cjsStatements_lines (cs : List Char) (ms : List (Nat × List Char)) :
    (cjsStatements cs ms).map (fun st => st.line) =
      ms.map fun m => getLineNumber cs m.1 := by
  unfold cjsStatements
  rw [List.map_map]
  rfl

theorem dynStatements_lines (cs : List Char) (ms : List (Nat × List Char)) :
    (dynStatements cs ms).map (fun st => st.line) =
      ms.map fun m => getLineNumber cs m.1 := by
  unfold dynStatements
  rw [List.map_map]
  rfl

/-! ## Claim theorems -/

/-- Concrete configuration for C1: the alias table maps the pattern `@/*` to
`src/*`, and `/ws/src/utils.ts` exists. -/
def c1Config : PathResolverConfig := ⟨"/ws", some [("@/*", ["src/*"])], none⟩

def c1Fs : Fs := fun p => p = "/ws/src/utils.ts"

/-- C1 (evidence for the code bug): with path mappings configured and the
alias target existing on disk, `resolve` of the alias-matching specifier
`@/utils` returns `null` with an empty I/O trace — the specifier is
classified external before the alias table is ever consulted — although
`resolveTsconfigPath` alone would have resolved it to `/ws/src/utils.ts`.
This contradicts the claim (and the class's own documentation, which lists
`@/components`-style aliases as supported). -/
theorem claim_C1_alias_rejected_as_external :
    resolve c1Config c1Fs "@/utils" "/ws/src/app.ts" = (none, [])
    ∧ resolveTsconfigPath c1Config c1Fs "@/utils"
        = (some "/ws/src/utils.ts", [ResolveEvent.statCall "/ws/src/utils.ts"])
    ∧ isExternalPackage "@/utils" = true :=
  ⟨by decide, by decide, by decide⟩

/-- C2: a specifier that begins with neither `.` nor `/` is classified as
externally managed and `resolve` returns `null` immediately, with an empty
event trace — no stat call and no tsconfig load, whatever the configuration
and file system. -/
theorem claim_C2_external_short_circuit (cfg : PathResolverConfig) (fs : Fs)
    (spec file : String)
    (hdot : spec.data.head? ≠ some '.') (hslash : spec.data.head? ≠ some '/') :
    resolve cfg fs spec file = (none, []) := by
  have hext : isExternalPackage spec = true := by
    simp [isExternalPackage, strStartsWithChar, hdot, hslash]
  unfold resolve
  rw [hext]
  simp

/-- Witness for C2 at `"react"`, with mappings, a baseUrl and an all-true
file system configured: still `(none, [])`. -/
theorem claim_C2_witness :
    resolve ⟨"/ws", some [("@/*", ["src/*"])], some "src"⟩ (fun _ => true)
      "react" "/ws/src/app.ts" = (none, []) :=
  claim_C2_external_short_circuit _ _ _ _ (by decide) (by decide)

/-- C3: shared-dependency protection of the Selection Orchestrator (modelled
from the spec).  If roots `r1 ≠ r2` both auto-selected `x` (both are in
`x`'s `selectedBy` set), then `removeRoot r1` does not report `x` as removed
and `x` stays in the active selection with `r2` still among its selectors;
and if `r1`, `r2` were the only selectors, removing both does remove `x`. -/
theorem claim_C3_shared_dependency_protection
    (s : SelectionState) (r1 r2 x : String) (rec : SelectionRecord)
    (hnd : (s.map Prod.fst).Nodup)
    (hx : s.lookup x = some rec)
    (h1 : r1 ∈ rec.selectedBy) (h2 : r2 ∈ rec.selectedBy) (hne : r1 ≠ r2)
    (honly : ∀ y ∈ rec.selectedBy, y = r1 ∨ y = r2) :
    x ∉ (removeRoot r1 s).1.removed
    ∧ (∃ rec2, ((removeRoot r1 s).2).lookup x = some rec2 ∧ r2 ∈ rec2.selectedBy)
    ∧ x ∈ (removeRoot r2 (removeRoot r1 s).2).1.removed := by
  have hmemf : r2 ∈ rec.selectedBy.filter fun y => !(y = r1) := by
    refine List.mem_filter.mpr ⟨h2, ?_⟩
    simp [Ne.symm hne]
  have hfne : (rec.selectedBy.filter fun y => !(y = r1)).isEmpty = false := by
    rcases hl : rec.selectedBy.filter (fun y => !(y = r1)) with _ | ⟨a, l⟩
    · rw [hl] at hmemf
      simp at hmemf
    · rfl
  refine ⟨removeRoot_not_removed s r1 x rec hnd hx hfne, ?_, ?_⟩
  · exact ⟨⟨rec.selectedBy.filter fun y => !(y = r1), rec.minDepth⟩,
      removeRoot_lookup s r1 x rec hx hfne, hmemf⟩
  · have hl2 := removeRoot_lookup s r1 x rec hx hfne
    have hm2 := lookup_mem _ x _ hl2
    have hempty : ((SelectionRecord.mk (rec.selectedBy.filter fun y => !(y = r1))
        rec.minDepth).selectedBy.filter fun y => !(y = r2)).isEmpty = true := by
      have hnil : (rec.selectedBy.filter fun y => !(y = r1)).filter
          (fun y => !(y = r2)) = [] := by
        rw [List.filter_filter]
        refine List.filter_eq_nil_iff.mpr ?_
        intro a ha
        rcases honly a ha with h | h <;> simp [h]
      simp only [hnil]
      rfl
    refine removeRoot_removed_mem _ r2 x _ hm2 ?_ hempty
    exact List.elem_eq_true_of_mem hmemf

/-- Concrete state for the C3 witness: one file selected by two roots. -/
def c3State : SelectionState := [("/ws/x.ts", ⟨["/ws/r1.ts", "/ws/r2.ts"], 1⟩)]

/-- Witness for C3 on a concrete two-root state. -/
theorem claim_C3_witness :
    "/ws/x.ts" ∉ (removeRoot "/ws/r1.ts" c3State).1.removed
    ∧ (∃ rec2, ((removeRoot "/ws/r1.ts" c3State).2).lookup "/ws/x.ts" = some rec2
        ∧ "/ws/r2.ts" ∈ rec2.selectedBy)
    ∧ "/ws/x.ts" ∈ (removeRoot "/ws/r2.ts" (removeRoot "/ws/r1.ts" c3State).2).1.removed :=
  claim_C3_shared_dependency_protection c3State "/ws/r1.ts" "/ws/r2.ts" "/ws/x.ts"
    ⟨["/ws/r1.ts", "/ws/r2.ts"], 1⟩ (by decide) (by decide) (by decide) (by decide)
    (by decide) (by decide)

/-- C4 (counterexample): for a file whose first line is a `require` and whose
second line is a static import, the returned sequence lists the static import
(line 2) before the require (line 1) — the output is not ordered by position
across kinds. -/
theorem claim_C4_counterexample :
    parseImportsFromContent "const a = require('./a')\nimport b from './b'" =
      [{ source := "./b", type := ImportType.es6, specifiers := ["b"], line := 2 },
       { source := "./a", type := ImportType.commonjs, specifiers := [], line := 1 }]
    ∧ ((parseImportsFromContent "const a = require('./a')\nimport b from './b'").map
        fun st => st.line) = [2, 1] :=
  ⟨by decide, by decide⟩

/-- C4 (amended): the returned sequence is the concatenation of the ES6
statements, then the CommonJS statements, then the dynamic-import statements;
within each of the three kinds the statements are ordered by position in the
(comment-stripped) source, their line numbers being non-decreasing. -/
theorem claim_C4_amended (content : String) :
    parseImportsFromContent content =
      parseES6Imports (removeComments content.data)
        ++ parseCommonJSImports (removeComments content.data)
        ++ parseDynamicImports (removeComments content.data)
    ∧ List.Chain' (fun a b => a ≤ b)
        ((parseES6Imports (removeComments content.data)).map fun st => st.line)
    ∧ List.Chain' (fun a b => a ≤ b)
        ((parseCommonJSImports (removeComments content.data)).map fun st => st.line)
    ∧ List.Chain' (fun a b => a ≤ b)
        ((parseDynamicImports (removeComments content.data)).map fun st => st.line) := by
  refine ⟨rfl, ?_, ?_, ?_⟩
  · rw [parseES6Imports, es6Statements_lines]
    exact scan_lines_mono _ _
  · rw [parseCommonJSImports, cjsStatements_lines]
    exact scan_lines_mono _ _
  · rw [parseDynamicImports, dynStatements_lines]
    exact scan_lines_mono _ _

/-- Witness for the amended C4 at a concrete content. -/
theorem claim_C4_witness :
    parseImportsFromContent "const a = require('./a')\nimport b from './b'" =
      parseES6Imports (removeComments ("const a = require('./a')\nimport b from './b'").data)
        ++ parseCommonJSImports
          (removeComments ("const a = require('./a')\nimport b from './b'").data)
        ++ parseDynamicImports
          (removeComments ("const a = require('./a')\nimport b from './b'").data) :=
  (claim_C4_amended "const a = require('./a')\nimport b from './b'").1

/-- C5 (counterexample): for content beginning with a multi-line block
comment, the reported `line` is computed on the comment-stripped text, not
the original input.  Here the import occurs at offset 6 of the original
content, preceded by 2 newlines — line 3 of the file — but the parser
reports line 2, because stripping `/*\n*/` deleted the newline it
contained. -/
theorem claim_C5_counterexample :
    parseImportsFromContent "/*\n*/\nimport a from './a'" =
      [{ source := "./a", type := ImportType.es6, specifiers := ["a"], line := 2 }]
    ∧ ("/*\n*/\nimport a from './a'").data.drop 6 = ("import a from './a'").data
    ∧ (("/*\n*/\nimport a from './a'").data.take 6).count '\n' + 1 = 3 :=
  ⟨by decide, by decide, by decide⟩

/-- C5 (amended): every returned statement's `line` equals one plus the
number of newline characters preceding the match offset in the
comment-stripped content (so block comments spanning lines shift the
reported line relative to the original input). -/
theorem claim_C5_amended (content : String) :
    (parseImportsFromContent content).map (fun st => st.line) =
      ((scanFrom es6TryMatch (removeComments content.data) 0).map fun m =>
          ((removeComments content.data).take m.1).count '\n' + 1)
        ++ ((scanFrom cjsTryMatch (removeComments content.data) 0).map fun m =>
          ((removeComments content.data).take m.1).count '\n' + 1)
        ++ ((scanFrom dynTryMatch (removeComments content.data) 0).map fun m =>
          ((removeComments content.data).take m.1).count '\n' + 1) := by
  show (parseES6Imports (removeComments content.data)
      ++ parseCommonJSImports (removeComments content.data)
      ++ parseDynamicImports (removeComments content.data)).map (fun st => st.line) = _
  rw [List.map_append, List.map_append]
  rw [parseES6Imports, es6Statements_lines, parseCommonJSImports, cjsStatements_lines,
    parseDynamicImports, dynStatements_lines]
  simp only [getLineNumber_eq]

/-- Witness for the amended C5 at a concrete content. -/
theorem claim_C5_witness :
    ((parseImportsFromContent "/*\n*/\nimport a from './a'").map fun st => st.line) =
      ((scanFrom es6TryMatch (removeComments ("/*\n*/\nimport a from './a'").data) 0).map
          fun m => ((removeComments ("/*\n*/\nimport a from './a'").data).take m.1).count '\n' + 1)
        ++ ((scanFrom cjsTryMatch (removeComments ("/*\n*/\nimport a from './a'").data) 0).map
          fun m => ((removeComments ("/*\n*/\nimport a from './a'").data).take m.1).count '\n' + 1)
        ++ ((scanFrom dynTryMatch (removeComments ("/*\n*/\nimport a from './a'").data) 0).map
          fun m => ((removeComments ("/*\n*/\nimport a from './a'").data).take m.1).count '\n' + 1) :=
  claim_C5_amended "/*\n*/\nimport a from './a'"

/-- C6 (counterexample): a multi-line named import binds `foo`, yet the
returned `specifiers` list is empty — the extraction only inspects the first
line of the match (`import \x7b`), on which none of the three specifier
regexes succeed.  So `specifiers` is not the sequence of bound names for
multi-line forms, and it is empty for more than side-effect-only imports. -/
theorem claim_C6_counterexample :
    parseImportsFromContent "import \x7b\n  foo\n\x7d from './x'" =
      [{ source := "./x", type := ImportType.es6, specifiers := [], line := 1 }] := by
  decide

/-- C6 (amended): `specifiers` is computed from the single source line on
which the match starts.  Single-line default-only, named-only and namespace
imports yield their bound names in order (the namespace form rendered as
`* as N`); side-effect-only imports and the require/dynamic kinds yield the
empty sequence; and multi-line named imports as well as combined
default-plus-named imports also yield the empty sequence. -/
theorem claim_C6_amended :
    parseImportsFromContent "import Foo from './a'" =
      [{ source := "./a", type := ImportType.es6, specifiers := ["Foo"], line := 1 }]
    ∧ parseImportsFromContent "import \x7b foo, bar \x7d from './b'" =
      [{ source := "./b", type := ImportType.es6, specifiers := ["foo", "bar"], line := 1 }]
    ∧ parseImportsFromContent "import * as NS from './c'" =
      [{ source := "./c", type := ImportType.es6, specifiers := ["* as NS"], line := 1 }]
    ∧ parseImportsFromContent "import './styles.css'" =
      [{ source := "./styles.css", type := ImportType.es6, specifiers := [], line := 1 }]
    ∧ parseImportsFromContent "import Foo, \x7b bar \x7d from './d'" =
      [{ source := "./d", type := ImportType.es6, specifiers := [], line := 1 }]
    ∧ parseImportsFromContent "const foo = require('./bar')" =
      [{ source := "./bar", type := ImportType.commonjs, specifiers := [], line := 1 }]
    ∧ parseImportsFromContent "import('./dyn')" =
      [{ source := "./dyn", type := ImportType.dynamic, specifiers := [], line := 1 }] :=
  ⟨by decide, by decide, by decide, by decide, by decide, by decide, by decide⟩

/-- C7: comments are stripped before scanning, so the commented-out import
produces no statement: the given content yields exactly one statement, with
source `./real`. -/
theorem claim_C7_commented_import_ignored :
    parseImportsFromContent "// import foo from './bar'\nimport real from './real'" =
      [{ source := "./real", type := ImportType.es6, specifiers := ["real"], line := 2 }] := by
  decide

/-- C8: `findFile` returns the first candidate that exists, probing in the
fixed order (verbatim path when it has an extension, then each supported
extension, then each barrel file), and `resolve` (with no alias table and no
baseUrl) on a non-external specifier returns exactly that first existing
candidate of the relative base path — `none` when no candidate exists.  Both
functions are total by construction: a throwing stat is absorbed as `false`
and yields `none`, never an exception. -/
theorem claim_C8_first_candidate_total :
    (∀ (fs : Fs) (basePath : String),
        (findFile fs basePath).1 = (findFileCandidates basePath).find? fs)
    ∧ ∀ (cfg : PathResolverConfig) (fs : Fs) (spec file : String),
        cfg.pathMappings = none → cfg.baseUrl = none →
        isExternalPackage spec = false →
        (resolve cfg fs spec file).1 =
          (findFileCandidates (pathResolve (pathDirname file) spec)).find? fs :=
  ⟨findFile_fst, resolve_relative_fst⟩

def c8Fs : Fs := fun p => p = "/ws/src/utils.ts"

/-- Witness for C8: `./utils` imported from `/ws/src/app.ts` resolves to the
first existing candidate, `/ws/src/utils.ts`. -/
theorem claim_C8_witness :
    (resolve ⟨"/ws", none, none⟩ c8Fs "./utils" "/ws/src/app.ts").1 =
      (findFileCandidates (pathResolve (pathDirname "/ws/src/app.ts") "./utils")).find? c8Fs
    ∧ (resolve ⟨"/ws", none, none⟩ c8Fs "./utils" "/ws/src/app.ts").1 =
      some "/ws/src/utils.ts" :=
  ⟨claim_C8_first_candidate_total.2 _ c8Fs _ _ rfl rfl (by decide), by decide⟩

/-- C9: extraction is a pure, deterministic function of the text.  With the
shared mutable `lastIndex` of the three static regexes made explicit, two
runs from arbitrary (and arbitrarily different) regex states return the same
statement sequence, which equals the pure model's output; the final regex
state is always the reset state, because each parse loop sets
`lastIndex = 0` before scanning and its terminating failed `exec` resets it
again. -/
theorem claim_C9_pure_deterministic (content : String) (reg reg2 : RegexRegistry) :
    (parseImportsFromContentSt content reg).1 = (parseImportsFromContentSt content reg2).1
    ∧ (parseImportsFromContentSt content reg).1 = parseImportsFromContent content
    ∧ (parseImportsFromContentSt content reg).2 = ⟨0, 0, 0⟩ :=
  ⟨rfl, rfl, rfl⟩

/-- Witness for C9 at a concrete content with two different incoming regex
states. -/
theorem claim_C9_witness :
    (parseImportsFromContentSt "import a from './a'" ⟨3, 14, 15⟩).1 =
      (parseImportsFromContentSt "import a from './a'" ⟨9, 2, 6⟩).1 :=
  (claim_C9_pure_deterministic "import a from './a'" ⟨3, 14, 15⟩ ⟨9, 2, 6⟩).1

/-- C10: comment stripping is not string-aware.  In content whose string
literal contains `//`, the stripping step deletes the rest of the line,
including the genuine import that follows the literal — extraction returns
nothing, although the same import alone is recognized. -/
theorem claim_C10_string_unaware_false_negative :
    parseImportsFromContent "const s = \"http://x\"; import y from './y'" = []
    ∧ parseImportsFromContent "import y from './y'" =
      [{ source := "./y", type := ImportType.es6, specifiers := ["y"], line := 1 }] :=
  ⟨by decide, by decide⟩

end Overwrite
